import Mathlib

/-!
Shallow embedding of `src/advanced statistical methods/differential equations/
mixed-discrete-continious.py`: two stochastic hybrid-system simulators,
`HybridEquation` (condition-triggered jumps) and `JumpDiffusion`
(intensity-triggered jumps).  Real numbers are modelled by `ℚ` (exact
arithmetic); numpy vectors by `List ℚ`; the global numpy random generator by an
explicit stream-with-position record threaded through every step; Python
exceptions by `Except PyErr`.
-/

/-- Python/numpy exception outcomes relevant to this module.
`zeroDivisionError` models Python's `ZeroDivisionError` (raised by
`(t1 - t0) / dt` when `dt = 0`); `broadcastValueError` models numpy's
`ValueError: operands could not be broadcast together`;
`invalidParameterError` models the `InvalidParameterError` named by the spec
(never raised anywhere in the source). -/
inductive PyErr where
  | zeroDivisionError
  | broadcastValueError
  | invalidParameterError
deriving DecidableEq, Repr

/-- A numpy state vector `y` (1-d array of floats, modelled exactly). -/
abbrev State := List ℚ

/-- Model of the global `np.random` generator: an infinite stream of values for
`np.random.normal` draws and one for `np.random.uniform` draws, each with a
cursor recording how many values have been consumed so far. -/
structure Rng where
  normStream : ℕ → ℚ
  normPos : ℕ
  uniStream : ℕ → ℚ
  uniPos : ℕ

/-- Model of `np.random.normal(size=n)`: consume the next `n` values of the
normal stream and advance the cursor. -/
def Rng.normals (r : Rng) (n : ℕ) : List ℚ × Rng :=
  ((List.range n).map fun i => r.normStream (r.normPos + i),
   { r with normPos := r.normPos + n })

/-- Model of `np.random.uniform()`: consume the next value of the uniform
stream and advance the cursor. -/
def Rng.uniform (r : Rng) : ℚ × Rng :=
  (r.uniStream r.uniPos, { r with uniPos := r.uniPos + 1 })

/-- Elementwise numpy `+` on two arrays of equal shape. -/
def vAdd (a b : State) : State := List.zipWith (· + ·) a b

/-- Elementwise numpy `*` on two arrays of equal shape. -/
def vMul (a b : State) : State := List.zipWith (· * ·) a b

/-- A numpy scalar–array product `c * v`. -/
def sMul (c : ℚ) (v : State) : State := v.map fun x => c * x

/-- Python `int(q)` applied to an exact quotient: truncation toward zero. -/
def intTrunc (q : ℚ) : ℤ := Int.tdiv q.num (q.den : ℤ)

/-- The immutable constructor parameters of the `HybridEquation` class. -/
structure HybridEquation where
  f_continuous : State → State
  g_stochastic : State → State
  jump_condition : State → ℚ → Bool
  jump_map : State → ℚ → State
  y0 : State
  t0 : ℚ
  t1 : ℚ
  dt : ℚ
  noise_intensity : ℚ

/-- The mutable attributes a simulator instance carries between calls:
`self.y`, `self.t`, `self.trajectory`, `self.time`.  Shared by both classes. -/
structure SimState where
  y : State
  t : ℚ
  trajectory : List State
  time : List ℚ

/-- The result of one run of the `for` loop inside `solve`: the times and
states appended during the loop, the final `self.y` and `self.t`, and the
random generator after the loop. -/
structure LoopRes where
  time : List ℚ
  trajectory : List State
  y : State
  t : ℚ
  rng : Rng

/-- Model of `HybridEquation.__init__`.  The only computation that can raise is
`self.steps = int((t1 - t0) / dt)`: Python raises `ZeroDivisionError` when
`dt = 0`.  No other parameter is inspected. -/
def HybridEquation.init (f_continuous g_stochastic : State → State)
    (jump_condition : State → ℚ → Bool) (jump_map : State → ℚ → State)
    (y0 : State) (t0 t1 dt noise_intensity : ℚ) :
    Except PyErr HybridEquation :=
  if dt = 0 then .error .zeroDivisionError
  else .ok ⟨f_continuous, g_stochastic, jump_condition, jump_map, y0, t0, t1,
            dt, noise_intensity⟩

/-- The attribute `self.steps = int((t1 - t0) / dt)` (well defined once
construction succeeded, i.e. `dt ≠ 0`). -/
def HybridEquation.steps (M : HybridEquation) : ℤ :=
  intTrunc ((M.t1 - M.t0) / M.dt)

/-- The mutable attributes as `__init__` leaves them: `self.y = y0`,
`self.t = t0`, `self.trajectory = [y0]`, `self.time = [t0]`. -/
def HybridEquation.initState (M : HybridEquation) : SimState :=
  ⟨M.y0, M.t0, [M.y0], [M.t0]⟩

/-- Model of `HybridEquation.euler_maruyama_step`:
`noise = noise_intensity * np.sqrt(dt) * np.random.normal(size=y.shape)`,
result `y + f_continuous(y) * dt + g_stochastic(y) * noise`.  The opaque float
function `np.sqrt` is passed in as the parameter `sqrt`. -/
def HybridEquation.euler_maruyama_step (M : HybridEquation) (sqrt : ℚ → ℚ)
    (y : State) (dt : ℚ) (r : Rng) : State × Rng :=
  let d := r.normals y.length
  let noise := sMul (M.noise_intensity * sqrt dt) d.1
  (vAdd (vAdd y (sMul dt (M.f_continuous y))) (vMul (M.g_stochastic y) noise),
   d.2)

/-- The body of the `for` loop in `HybridEquation.solve`, run `n` times from
state `y`, time `t`, generator `r`: each iteration either applies the jump map
(when `jump_condition(y, t)` holds) or the Euler–Maruyama step, then advances
`t` by `dt` and appends the new time and state. -/
def HybridEquation.loop (M : HybridEquation) (sqrt : ℚ → ℚ) :
    ℕ → State → ℚ → Rng → LoopRes
  | 0, y, t, r => ⟨[], [], y, t, r⟩
  | n + 1, y, t, r =>
    let p := if M.jump_condition y t then (M.jump_map y t, r)
             else M.euler_maruyama_step sqrt y M.dt r
    let res := M.loop sqrt n p.1 (t + M.dt) p.2
    ⟨(t + M.dt) :: res.time, p.1 :: res.trajectory, res.y, res.t, res.rng⟩

/-- One iteration of the `HybridEquation.solve` loop as a function on
(state, time, generator) triples. -/
def HybridEquation.stepFn (M : HybridEquation) (sqrt : ℚ → ℚ)
    (s : State × ℚ × Rng) : State × ℚ × Rng :=
  let p := if M.jump_condition s.1 s.2.1 then (M.jump_map s.1 s.2.1, s.2.2)
           else M.euler_maruyama_step sqrt s.1 M.dt s.2.2
  (p.1, s.2.1 + M.dt, p.2)

/-- Model of `HybridEquation.solve`: runs the loop `self.steps` times
(`range` of a negative count is empty, hence `Int.toNat`), appending to the
`self.time` and `self.trajectory` buffers already held by the instance, and
returns the two buffers together with the mutated instance state and
generator. -/
def HybridEquation.solve (M : HybridEquation) (sqrt : ℚ → ℚ) (s : SimState)
    (r : Rng) : (List ℚ × List State) × SimState × Rng :=
  let res := M.loop sqrt M.steps.toNat s.y s.t r
  let time := s.time ++ res.time
  let traj := s.trajectory ++ res.trajectory
  ((time, traj), ⟨res.y, res.t, traj, time⟩, res.rng)

/-- The immutable constructor parameters of the `JumpDiffusion` class. -/
structure JumpDiffusion where
  f : State → State
  g : State → State
  jump_intensity : ℚ
  jump_size : State → State
  y0 : State
  t0 : ℚ
  t1 : ℚ
  dt : ℚ
  noise_intensity : ℚ

/-- Model of `JumpDiffusion.__init__`; as for `HybridEquation.init`, only
`int((t1 - t0) / dt)` can raise, and only when `dt = 0`. -/
def JumpDiffusion.init (f g : State → State) (jump_intensity : ℚ)
    (jump_size : State → State) (y0 : State) (t0 t1 dt noise_intensity : ℚ) :
    Except PyErr JumpDiffusion :=
  if dt = 0 then .error .zeroDivisionError
  else .ok ⟨f, g, jump_intensity, jump_size, y0, t0, t1, dt, noise_intensity⟩

/-- The attribute `self.steps = int((t1 - t0) / dt)` of `JumpDiffusion`. -/
def JumpDiffusion.steps (M : JumpDiffusion) : ℤ :=
  intTrunc ((M.t1 - M.t0) / M.dt)

/-- The mutable attributes as `JumpDiffusion.__init__` leaves them. -/
def JumpDiffusion.initState (M : JumpDiffusion) : SimState :=
  ⟨M.y0, M.t0, [M.y0], [M.t0]⟩

/-- Model of `JumpDiffusion.euler_maruyama_step` (same formula as the hybrid
class, with fields `f` and `g`). -/
def JumpDiffusion.euler_maruyama_step (M : JumpDiffusion) (sqrt : ℚ → ℚ)
    (y : State) (dt : ℚ) (r : Rng) : State × Rng :=
  let d := r.normals y.length
  let noise := sMul (M.noise_intensity * sqrt dt) d.1
  (vAdd (vAdd y (sMul dt (M.f y))) (vMul (M.g y) noise), d.2)

/-- Model of `JumpDiffusion.apply_jump`: draw one uniform sample; if it is
below `jump_intensity * dt` return `y + jump_size(y)`, else return `y`. -/
def JumpDiffusion.apply_jump (M : JumpDiffusion) (y : State) (r : Rng) :
    State × Rng :=
  let u := r.uniform
  if u.1 < M.jump_intensity * M.dt then (vAdd y (M.jump_size y), u.2)
  else (y, u.2)

/-- The body of the `for` loop in `JumpDiffusion.solve`: each iteration first
applies the Euler–Maruyama step, then `apply_jump` on its result, then
advances `t` by `dt` and appends the new time and state. -/
def JumpDiffusion.loop (M : JumpDiffusion) (sqrt : ℚ → ℚ) :
    ℕ → State → ℚ → Rng → LoopRes
  | 0, y, t, r => ⟨[], [], y, t, r⟩
  | n + 1, y, t, r =>
    let p := M.euler_maruyama_step sqrt y M.dt r
    let q := M.apply_jump p.1 p.2
    let res := M.loop sqrt n q.1 (t + M.dt) q.2
    ⟨(t + M.dt) :: res.time, q.1 :: res.trajectory, res.y, res.t, res.rng⟩

/-- One iteration of the `JumpDiffusion.solve` loop as a function on
(state, time, generator) triples. -/
def JumpDiffusion.stepFn (M : JumpDiffusion) (sqrt : ℚ → ℚ)
    (s : State × ℚ × Rng) : State × ℚ × Rng :=
  let p := M.euler_maruyama_step sqrt s.1 M.dt s.2.2
  let q := M.apply_jump p.1 p.2
  (q.1, s.2.1 + M.dt, q.2)

/-- Model of `JumpDiffusion.solve` (same orchestration as
`HybridEquation.solve`). -/
def JumpDiffusion.solve (M : JumpDiffusion) (sqrt : ℚ → ℚ) (s : SimState)
    (r : Rng) : (List ℚ × List State) × SimState × Rng :=
  let res := M.loop sqrt M.steps.toNat s.y s.t r
  let time := s.time ++ res.time
  let traj := s.trajectory ++ res.trajectory
  ((time, traj), ⟨res.y, res.t, traj, time⟩, res.rng)

/-- The deterministic explicit-Euler update `y + f(y) * dt`: what one
Euler–Maruyama step computes when the noise term vanishes.  Reference
definition for the zero-noise determinism property. -/
def eulerNext (f : State → State) (dt : ℚ) (y : State) : State :=
  vAdd y (sMul dt (f y))

/-- The states reached by `n` deterministic Euler updates, in order. -/
def eulerTraj (f : State → State) (dt : ℚ) : ℕ → State → List State
  | 0, _ => []
  | n + 1, y => eulerNext f dt y :: eulerTraj f dt n (eulerNext f dt y)

/-- The state after `n` deterministic Euler updates. -/
def eulerIterate (f : State → State) (dt : ℚ) (n : ℕ) (y : State) : State :=
  (eulerNext f dt)^[n] y

/-- The grid times `t + dt, t + 2 dt, …, t + n dt`, as appended by the solve
loop. -/
def timesFrom (dt : ℚ) : ℕ → ℚ → List ℚ
  | 0, _ => []
  | n + 1, t => (t + dt) :: timesFrom dt n (t + dt)

/-- Reference loop built from the spec's StepIntegrator-only reduction of the
jump-diffusion simulator: every iteration applies the Euler–Maruyama update
and nothing else.  Used to compare `JumpDiffusion.loop` against when the jump
is disabled (λ = 0). -/
def JumpDiffusion.emOnlyLoop (M : JumpDiffusion) (sqrt : ℚ → ℚ) :
    ℕ → State → ℚ → Rng → LoopRes
  | 0, y, t, r => ⟨[], [], y, t, r⟩
  | n + 1, y, t, r =>
    let p := M.euler_maruyama_step sqrt y M.dt r
    let res := M.emOnlyLoop sqrt n p.1 (t + M.dt) p.2
    ⟨(t + M.dt) :: res.time, p.1 :: res.trajectory, res.y, res.t, res.rng⟩

/-- Reference solver running `emOnlyLoop`, with the same orchestration as
`JumpDiffusion.solve`. -/
def JumpDiffusion.emOnlySolve (M : JumpDiffusion) (sqrt : ℚ → ℚ)
    (s : SimState) (r : Rng) : (List ℚ × List State) × SimState × Rng :=
  let res := M.emOnlyLoop sqrt M.steps.toNat s.y s.t r
  let time := s.time ++ res.time
  let traj := s.trajectory ++ res.trajectory
  ((time, traj), ⟨res.y, res.t, traj, time⟩, res.rng)

/-- Numpy's shape rule for a 1-d binary elementwise operation: the two lengths
must be equal, or one of them must be `1` (scalar broadcasting). -/
def compatLen (m n : ℕ) : Prop := m = n ∨ m = 1 ∨ n = 1

instance (m n : ℕ) : Decidable (compatLen m n) := by
  unfold compatLen; infer_instance

/-- The length numpy gives the result of a broadcast binary operation on 1-d
operands of lengths `m` and `n` (meaningful when `compatLen m n`). -/
def blen (m n : ℕ) : ℕ := if m = n then m else if m = 1 then n else m

/-- A numpy binary elementwise operation with 1-d broadcasting: equal lengths
operate elementwise; a length-1 operand is stretched; any other mismatch
raises `ValueError: operands could not be broadcast together`. -/
def npBinop (op : ℚ → ℚ → ℚ) (a b : List ℚ) : Except PyErr (List ℚ) :=
  if a.length = b.length then .ok (List.zipWith op a b)
  else if a.length = 1 then .ok (b.map fun x => op (a.headD 0) x)
  else if b.length = 1 then .ok (a.map fun x => op x (b.headD 0))
  else .error .broadcastValueError

/-- The three array–array operations of the expression
`y + f(y) * dt + g(y) * noise`, evaluated left to right as Python does, with
numpy's broadcast checking at each one: first `y + fyd` (where `fyd` is the
already-scaled `f(y) * dt`), then `gy * noise`, then the sum of the two
results.  The first incompatible pair of shapes raises. -/
def emCheckedCore (y fyd gy noise : List ℚ) : Except PyErr (List ℚ) :=
  (npBinop (· + ·) y fyd).bind fun s1 =>
    (npBinop (· * ·) gy noise).bind fun gn =>
      npBinop (· + ·) s1 gn

/-- Model of `HybridEquation.euler_maruyama_step` with numpy's shape checking
made explicit.  `f(y) * dt` and the scalar products inside `noise` involve a
scalar, which always broadcasts, and `noise` has exactly the shape of `y`;
the three array–array operations are checked by `emCheckedCore`. -/
def HybridEquation.emStepChecked (M : HybridEquation) (sqrt : ℚ → ℚ)
    (y : State) (dt : ℚ) (r : Rng) : Except PyErr (State × Rng) :=
  let d := r.normals y.length
  let noise := sMul (M.noise_intensity * sqrt dt) d.1
  (emCheckedCore y (sMul dt (M.f_continuous y)) (M.g_stochastic y) noise).map
    fun out => (out, d.2)

/-- Model of `JumpDiffusion.euler_maruyama_step` with numpy's shape checking
made explicit (the function body is textually the same as the hybrid one). -/
def JumpDiffusion.emStepChecked (M : JumpDiffusion) (sqrt : ℚ → ℚ)
    (y : State) (dt : ℚ) (r : Rng) : Except PyErr (State × Rng) :=
  let d := r.normals y.length
  let noise := sMul (M.noise_intensity * sqrt dt) d.1
  (emCheckedCore y (sMul dt (M.f y)) (M.g y) noise).map
    fun out => (out, d.2)

/-! ### Helper lemmas: loop structure -/

theorem HybridEquation.loop_time_length (M : HybridEquation) (sqrt : ℚ → ℚ) :
    ∀ (n : ℕ) (y : State) (t : ℚ) (r : Rng),
      (M.loop sqrt n y t r).time.length = n := by
  intro n
  induction n with
  | zero => intro y t r; rfl
  | succ n ih => intro y t r; simp [HybridEquation.loop, ih]

theorem HybridEquation.loop_traj_length (M : HybridEquation) (sqrt : ℚ → ℚ) :
    ∀ (n : ℕ) (y : State) (t : ℚ) (r : Rng),
      (M.loop sqrt n y t r).trajectory.length = n := by
  intro n
  induction n with
  | zero => intro y t r; rfl
  | succ n ih => intro y t r; simp [HybridEquation.loop, ih]

theorem HybridEquation.loop_eq_stepFn (M : HybridEquation) (sqrt : ℚ → ℚ)
    (n : ℕ) (y : State) (t : ℚ) (r : Rng) :
    M.loop sqrt (n + 1) y t r =
      let s := M.stepFn sqrt (y, t, r)
      let res := M.loop sqrt n s.1 s.2.1 s.2.2
      ⟨s.2.1 :: res.time, s.1 :: res.trajectory, res.y, res.t, res.rng⟩ := by
  simp only [HybridEquation.loop, HybridEquation.stepFn]

theorem HybridEquation.loop_traj_get (M : HybridEquation) (sqrt : ℚ → ℚ) :
    ∀ (n : ℕ) (y : State) (t : ℚ) (r : Rng) (i : ℕ), i < n →
      (M.loop sqrt n y t r).trajectory.get? i =
        some (((M.stepFn sqrt)^[i + 1] (y, t, r)).1) := by
  intro n
  induction n with
  | zero => intro y t r i h; omega
  | succ n ih =>
    intro y t r i h
    rw [M.loop_eq_stepFn sqrt n y t r]
    cases i with
    | zero => simp
    | succ i =>
      simp only [List.get?_cons_succ]
      rw [ih _ _ _ i (by omega)]
      rw [Function.iterate_succ_apply, Function.iterate_succ_apply]
      rfl

theorem HybridEquation.loop_time_get (M : HybridEquation) (sqrt : ℚ → ℚ) :
    ∀ (n : ℕ) (y : State) (t : ℚ) (r : Rng) (i : ℕ), i < n →
      (M.loop sqrt n y t r).time.get? i =
        some (((M.stepFn sqrt)^[i + 1] (y, t, r)).2.1) := by
  intro n
  induction n with
  | zero => intro y t r i h; omega
  | succ n ih =>
    intro y t r i h
    rw [M.loop_eq_stepFn sqrt n y t r]
    cases i with
    | zero => simp
    | succ i =>
      simp only [List.get?_cons_succ]
      rw [ih _ _ _ i (by omega)]
      rw [Function.iterate_succ_apply, Function.iterate_succ_apply]
      rfl

theorem HybridEquation.stepFn_iterate_time (M : HybridEquation) (sqrt : ℚ → ℚ)
    (y : State) (t : ℚ) (r : Rng) :
    ∀ (k : ℕ), (((M.stepFn sqrt)^[k]) (y, t, r)).2.1 = t + k * M.dt := by
  intro k
  induction k with
  | zero => simp
  | succ k ih =>
    rw [Function.iterate_succ_apply']
    show (((M.stepFn sqrt)^[k]) (y, t, r)).2.1 + M.dt = t + (k + 1 : ℕ) * M.dt
    rw [ih]; push_cast; ring

theorem HybridEquation.loop_final_t (M : HybridEquation) (sqrt : ℚ → ℚ) :
    ∀ (n : ℕ) (y : State) (t : ℚ) (r : Rng),
      (M.loop sqrt n y t r).t = t + n * M.dt := by
  intro n
  induction n with
  | zero => intro y t r; simp [HybridEquation.loop]
  | succ n ih =>
    intro y t r
    simp only [HybridEquation.loop, ih]
    push_cast; ring

theorem JumpDiffusion.jd_loop_time_length (M : JumpDiffusion) (sqrt : ℚ → ℚ) :
    ∀ (n : ℕ) (y : State) (t : ℚ) (r : Rng),
      (M.loop sqrt n y t r).time.length = n := by
  intro n
  induction n with
  | zero => intro y t r; rfl
  | succ n ih => intro y t r; simp [JumpDiffusion.loop, ih]

theorem JumpDiffusion.jd_loop_traj_length (M : JumpDiffusion) (sqrt : ℚ → ℚ) :
    ∀ (n : ℕ) (y : State) (t : ℚ) (r : Rng),
      (M.loop sqrt n y t r).trajectory.length = n := by
  intro n
  induction n with
  | zero => intro y t r; rfl
  | succ n ih => intro y t r; simp [JumpDiffusion.loop, ih]

theorem JumpDiffusion.jd_loop_eq_stepFn (M : JumpDiffusion) (sqrt : ℚ → ℚ)
    (n : ℕ) (y : State) (t : ℚ) (r : Rng) :
    M.loop sqrt (n + 1) y t r =
      let s := M.stepFn sqrt (y, t, r)
      let res := M.loop sqrt n s.1 s.2.1 s.2.2
      ⟨s.2.1 :: res.time, s.1 :: res.trajectory, res.y, res.t, res.rng⟩ := by
  simp only [JumpDiffusion.loop, JumpDiffusion.stepFn]

theorem JumpDiffusion.jd_loop_traj_get (M : JumpDiffusion) (sqrt : ℚ → ℚ) :
    ∀ (n : ℕ) (y : State) (t : ℚ) (r : Rng) (i : ℕ), i < n →
      (M.loop sqrt n y t r).trajectory.get? i =
        some (((M.stepFn sqrt)^[i + 1] (y, t, r)).1) := by
  intro n
  induction n with
  | zero => intro y t r i h; omega
  | succ n ih =>
    intro y t r i h
    rw [M.jd_loop_eq_stepFn sqrt n y t r]
    cases i with
    | zero => simp
    | succ i =>
      simp only [List.get?_cons_succ]
      rw [ih _ _ _ i (by omega)]
      rw [Function.iterate_succ_apply, Function.iterate_succ_apply]
      rfl

theorem JumpDiffusion.jd_loop_time_get (M : JumpDiffusion) (sqrt : ℚ → ℚ) :
    ∀ (n : ℕ) (y : State) (t : ℚ) (r : Rng) (i : ℕ), i < n →
      (M.loop sqrt n y t r).time.get? i =
        some (((M.stepFn sqrt)^[i + 1] (y, t, r)).2.1) := by
  intro n
  induction n with
  | zero => intro y t r i h; omega
  | succ n ih =>
    intro y t r i h
    rw [M.jd_loop_eq_stepFn sqrt n y t r]
    cases i with
    | zero => simp
    | succ i =>
      simp only [List.get?_cons_succ]
      rw [ih _ _ _ i (by omega)]
      rw [Function.iterate_succ_apply, Function.iterate_succ_apply]
      rfl

theorem JumpDiffusion.jd_stepFn_iterate_time (M : JumpDiffusion) (sqrt : ℚ → ℚ)
    (y : State) (t : ℚ) (r : Rng) :
    ∀ (k : ℕ), (((M.stepFn sqrt)^[k]) (y, t, r)).2.1 = t + k * M.dt := by
  intro k
  induction k with
  | zero => simp
  | succ k ih =>
    rw [Function.iterate_succ_apply']
    show (((M.stepFn sqrt)^[k]) (y, t, r)).2.1 + M.dt = t + (k + 1 : ℕ) * M.dt
    rw [ih]; push_cast; ring

theorem JumpDiffusion.jd_loop_final_t (M : JumpDiffusion) (sqrt : ℚ → ℚ) :
    ∀ (n : ℕ) (y : State) (t : ℚ) (r : Rng),
      (M.loop sqrt n y t r).t = t + n * M.dt := by
  intro n
  induction n with
  | zero => intro y t r; simp [JumpDiffusion.loop]
  | succ n ih =>
    intro y t r
    simp only [JumpDiffusion.loop, ih]
    push_cast; ring

/-! ### Helper lemmas: solve from a freshly constructed instance -/

theorem HybridEquation.solve_time_get (M : HybridEquation) (sqrt : ℚ → ℚ)
    (r : Rng) (i : ℕ) (h : i ≤ M.steps.toNat) :
    (M.solve sqrt M.initState r).1.1.get? i =
      some (((M.stepFn sqrt)^[i] (M.y0, M.t0, r)).2.1) := by
  rcases Nat.eq_zero_or_pos i with hi | hi
  · subst hi
    simp [HybridEquation.solve, HybridEquation.initState]
  · obtain ⟨j, rfl⟩ : ∃ j, i = j + 1 := ⟨i - 1, by omega⟩
    show ((M.initState.time ++ _ : List ℚ)).get? (j + 1) = _
    rw [show M.initState.time = [M.t0] from rfl]
    simp only [List.cons_append, List.nil_append, List.get?_cons_succ]
    exact M.loop_time_get sqrt _ _ _ _ j (by omega)

theorem HybridEquation.solve_traj_get (M : HybridEquation) (sqrt : ℚ → ℚ)
    (r : Rng) (i : ℕ) (h : i ≤ M.steps.toNat) :
    (M.solve sqrt M.initState r).1.2.get? i =
      some (((M.stepFn sqrt)^[i] (M.y0, M.t0, r)).1) := by
  rcases Nat.eq_zero_or_pos i with hi | hi
  · subst hi
    simp [HybridEquation.solve, HybridEquation.initState]
  · obtain ⟨j, rfl⟩ : ∃ j, i = j + 1 := ⟨i - 1, by omega⟩
    show ((M.initState.trajectory ++ _ : List State)).get? (j + 1) = _
    rw [show M.initState.trajectory = [M.y0] from rfl]
    simp only [List.cons_append, List.nil_append, List.get?_cons_succ]
    exact M.loop_traj_get sqrt _ _ _ _ j (by omega)

theorem HybridEquation.solve_time_length (M : HybridEquation) (sqrt : ℚ → ℚ)
    (s : SimState) (r : Rng) :
    (M.solve sqrt s r).1.1.length = s.time.length + M.steps.toNat := by
  simp [HybridEquation.solve, M.loop_time_length]

theorem HybridEquation.solve_traj_length (M : HybridEquation) (sqrt : ℚ → ℚ)
    (s : SimState) (r : Rng) :
    (M.solve sqrt s r).1.2.length = s.trajectory.length + M.steps.toNat := by
  simp [HybridEquation.solve, M.loop_traj_length]

theorem JumpDiffusion.jd_solve_time_length (M : JumpDiffusion) (sqrt : ℚ → ℚ)
    (s : SimState) (r : Rng) :
    (M.solve sqrt s r).1.1.length = s.time.length + M.steps.toNat := by
  simp [JumpDiffusion.solve, M.jd_loop_time_length]

theorem JumpDiffusion.jd_solve_traj_length (M : JumpDiffusion) (sqrt : ℚ → ℚ)
    (s : SimState) (r : Rng) :
    (M.solve sqrt s r).1.2.length = s.trajectory.length + M.steps.toNat := by
  simp [JumpDiffusion.solve, M.jd_loop_traj_length]

/-! ### Helper lemmas: Python truncation versus mathematical floor -/

theorem intTrunc_eq_floor (q : ℚ) (h : 0 ≤ q) : intTrunc q = ⌊q⌋ := by
  unfold intTrunc
  rw [Rat.floor_def]
  exact Int.tdiv_eq_ediv (Rat.num_nonneg.mpr h) (by positivity)

theorem intTrunc_eq_zero (q : ℚ) (h0 : 0 ≤ q) (h1 : q < 1) : intTrunc q = 0 := by
  rw [intTrunc_eq_floor q h0]
  exact Int.floor_eq_zero_iff.mpr ⟨h0, h1⟩

/-! ### Helper lemmas: elementwise access -/

theorem vAdd_length (a b : State) : (vAdd a b).length = min a.length b.length := by
  simp [vAdd]

theorem vMul_length (a b : State) : (vMul a b).length = min a.length b.length := by
  simp [vMul]

theorem sMul_length (c : ℚ) (v : State) : (sMul c v).length = v.length := by
  simp [sMul]

theorem normals_fst_length (r : Rng) (n : ℕ) : (r.normals n).1.length = n := by
  simp [Rng.normals]

theorem vAdd_getD (a b : State) (i : ℕ) (ha : i < a.length) (hb : i < b.length) :
    (vAdd a b).getD i 0 = a.getD i 0 + b.getD i 0 := by
  simp [vAdd, List.getD_eq_getElem?_getD, List.getElem?_zipWith',
        List.getElem?_eq_getElem, ha, hb]

theorem vMul_getD (a b : State) (i : ℕ) (ha : i < a.length) (hb : i < b.length) :
    (vMul a b).getD i 0 = a.getD i 0 * b.getD i 0 := by
  simp [vMul, List.getD_eq_getElem?_getD, List.getElem?_zipWith',
        List.getElem?_eq_getElem, ha, hb]

theorem sMul_getD (c : ℚ) (v : State) (i : ℕ) (h : i < v.length) :
    (sMul c v).getD i 0 = c * v.getD i 0 := by
  simp [sMul, List.getD_eq_getElem?_getD, List.getElem?_map,
        List.getElem?_eq_getElem, h]

theorem normals_fst_getD (r : Rng) (n i : ℕ) (h : i < n) :
    (r.normals n).1.getD i 0 = r.normStream (r.normPos + i) := by
  simp [Rng.normals, List.getD_eq_getElem?_getD, List.getElem?_map,
        List.getElem?_range, h]

theorem HybridEquation.em_rng (M : HybridEquation) (sqrt : ℚ → ℚ) (y : State)
    (dt : ℚ) (r : Rng) :
    (M.euler_maruyama_step sqrt y dt r).2 =
      { r with normPos := r.normPos + y.length } := rfl

theorem JumpDiffusion.jd_em_rng (M : JumpDiffusion) (sqrt : ℚ → ℚ) (y : State)
    (dt : ℚ) (r : Rng) :
    (M.euler_maruyama_step sqrt y dt r).2 =
      { r with normPos := r.normPos + y.length } := rfl

theorem HybridEquation.em_length (M : HybridEquation) (sqrt : ℚ → ℚ)
    (y : State) (dt : ℚ) (r : Rng)
    (hf : (M.f_continuous y).length = y.length)
    (hg : (M.g_stochastic y).length = y.length) :
    (M.euler_maruyama_step sqrt y dt r).1.length = y.length := by
  simp [HybridEquation.euler_maruyama_step, vAdd_length, vMul_length,
        sMul_length, normals_fst_length, hf, hg]

theorem JumpDiffusion.jd_em_length (M : JumpDiffusion) (sqrt : ℚ → ℚ)
    (y : State) (dt : ℚ) (r : Rng)
    (hf : (M.f y).length = y.length)
    (hg : (M.g y).length = y.length) :
    (M.euler_maruyama_step sqrt y dt r).1.length = y.length := by
  simp [JumpDiffusion.euler_maruyama_step, vAdd_length, vMul_length,
        sMul_length, normals_fst_length, hf, hg]

theorem HybridEquation.em_getD (M : HybridEquation) (sqrt : ℚ → ℚ)
    (y : State) (dt : ℚ) (r : Rng)
    (hf : (M.f_continuous y).length = y.length)
    (hg : (M.g_stochastic y).length = y.length)
    (i : ℕ) (hi : i < y.length) :
    (M.euler_maruyama_step sqrt y dt r).1.getD i 0 =
      y.getD i 0 + (M.f_continuous y).getD i 0 * dt
        + (M.g_stochastic y).getD i 0 *
            (M.noise_intensity * sqrt dt * r.normStream (r.normPos + i)) := by
  show (vAdd (vAdd y (sMul dt (M.f_continuous y)))
          (vMul (M.g_stochastic y)
            (sMul (M.noise_intensity * sqrt dt) (r.normals y.length).1))).getD i 0 = _
  rw [vAdd_getD, vAdd_getD, vMul_getD, sMul_getD, sMul_getD, normals_fst_getD]
  · ring
  all_goals
    simp [vAdd_length, vMul_length, sMul_length, normals_fst_length, hf, hg, hi]

theorem JumpDiffusion.jd_em_getD (M : JumpDiffusion) (sqrt : ℚ → ℚ)
    (y : State) (dt : ℚ) (r : Rng)
    (hf : (M.f y).length = y.length)
    (hg : (M.g y).length = y.length)
    (i : ℕ) (hi : i < y.length) :
    (M.euler_maruyama_step sqrt y dt r).1.getD i 0 =
      y.getD i 0 + (M.f y).getD i 0 * dt
        + (M.g y).getD i 0 *
            (M.noise_intensity * sqrt dt * r.normStream (r.normPos + i)) := by
  show (vAdd (vAdd y (sMul dt (M.f y)))
          (vMul (M.g y)
            (sMul (M.noise_intensity * sqrt dt) (r.normals y.length).1))).getD i 0 = _
  rw [vAdd_getD, vAdd_getD, vMul_getD, sMul_getD, sMul_getD, normals_fst_getD]
  · ring
  all_goals
    simp [vAdd_length, vMul_length, sMul_length, normals_fst_length, hf, hg, hi]

/-! ### Helper lemmas: vanishing noise -/

theorem vMul_sMul_zero (a : List ℚ) :
    ∀ (b : List ℚ), vMul a (sMul 0 b) = List.replicate (min a.length b.length) 0 := by
  induction a with
  | nil => intro b; simp [vMul, sMul]
  | cons x xs ih =>
    intro b
    cases b with
    | nil => simp [vMul, sMul]
    | cons z zs =>
      have ihz := ih zs
      simp only [vMul, sMul] at ihz ⊢
      simp only [List.map_cons, List.zipWith_cons_cons, List.length_cons]
      rw [ihz]
      simp [Nat.succ_min_succ, List.replicate_succ]

theorem vAdd_replicate_zero (a : List ℚ) :
    ∀ (n : ℕ), a.length ≤ n → vAdd a (List.replicate n 0) = a := by
  induction a with
  | nil => intro n _; simp [vAdd]
  | cons x xs ih =>
    intro n hn
    cases n with
    | zero => simp at hn
    | succ m =>
      simp only [List.replicate, vAdd, List.zipWith_cons_cons, add_zero]
      rw [show List.zipWith (· + ·) xs (List.replicate m 0) = xs from
            ih m (by simpa using hn)]

theorem HybridEquation.em_zero (M : HybridEquation) (sqrt : ℚ → ℚ) (y : State)
    (dt : ℚ) (r : Rng) (hσ : M.noise_intensity = 0)
    (hf : (M.f_continuous y).length = y.length)
    (hg : (M.g_stochastic y).length = y.length) :
    (M.euler_maruyama_step sqrt y dt r).1 = eulerNext M.f_continuous dt y := by
  show vAdd (vAdd y (sMul dt (M.f_continuous y)))
        (vMul (M.g_stochastic y)
          (sMul (M.noise_intensity * sqrt dt) (r.normals y.length).1)) = _
  rw [hσ, zero_mul, vMul_sMul_zero, vAdd_replicate_zero, eulerNext]
  simp [vAdd_length, sMul_length, normals_fst_length, hf, hg]

theorem JumpDiffusion.jd_em_zero (M : JumpDiffusion) (sqrt : ℚ → ℚ) (y : State)
    (dt : ℚ) (r : Rng) (hσ : M.noise_intensity = 0)
    (hf : (M.f y).length = y.length)
    (hg : (M.g y).length = y.length) :
    (M.euler_maruyama_step sqrt y dt r).1 = eulerNext M.f dt y := by
  show vAdd (vAdd y (sMul dt (M.f y)))
        (vMul (M.g y)
          (sMul (M.noise_intensity * sqrt dt) (r.normals y.length).1)) = _
  rw [hσ, zero_mul, vMul_sMul_zero, vAdd_replicate_zero, eulerNext]
  simp [vAdd_length, sMul_length, normals_fst_length, hf, hg]

theorem eulerNext_length (f : State → State) (dt : ℚ) (y : State)
    (hf : (f y).length = y.length) : (eulerNext f dt y).length = y.length := by
  simp [eulerNext, vAdd_length, sMul_length, hf]

theorem HybridEquation.loop_zero_noise (M : HybridEquation) (sqrt : ℚ → ℚ)
    (hσ : M.noise_intensity = 0)
    (hc : ∀ y t, M.jump_condition y t = false)
    (hf : ∀ y, (M.f_continuous y).length = y.length)
    (hg : ∀ y, (M.g_stochastic y).length = y.length) :
    ∀ (n : ℕ) (y : State) (t : ℚ) (r : Rng),
      M.loop sqrt n y t r =
        ⟨timesFrom M.dt n t, eulerTraj M.f_continuous M.dt n y,
         eulerIterate M.f_continuous M.dt n y, t + n * M.dt,
         { r with normPos := r.normPos + n * y.length }⟩ := by
  intro n
  induction n with
  | zero =>
    intro y t r
    simp [HybridEquation.loop, timesFrom, eulerTraj, eulerIterate]
  | succ n ih =>
    intro y t r
    have hcond : M.jump_condition y t = false := hc y t
    have hem1 := M.em_zero sqrt y M.dt r hσ (hf y) (hg y)
    have hem2 := M.em_rng sqrt y M.dt r
    simp only [HybridEquation.loop, hcond, Bool.false_eq_true, if_false,
               hem1, hem2, ih]
    simp only [LoopRes.mk.injEq]
    refine ⟨?_, ?_, ?_, ?_, ?_⟩
    · simp [timesFrom]
    · simp [eulerTraj]
    · simp only [eulerIterate, Function.iterate_succ_apply]
    · push_cast; ring
    · simp only [Rng.mk.injEq, and_true, true_and]
      rw [eulerNext_length _ _ _ (hf y)]
      ring

theorem JumpDiffusion.apply_jump_no_jump (M : JumpDiffusion) (y : State)
    (r : Rng) (hlam : M.jump_intensity = 0) (hu : 0 ≤ r.uniStream r.uniPos) :
    M.apply_jump y r = (y, { r with uniPos := r.uniPos + 1 }) := by
  unfold JumpDiffusion.apply_jump Rng.uniform
  rw [hlam, zero_mul]
  simp only [not_lt.mpr hu, if_false]

theorem JumpDiffusion.jd_loop_zero_noise (M : JumpDiffusion) (sqrt : ℚ → ℚ)
    (hσ : M.noise_intensity = 0) (hlam : M.jump_intensity = 0)
    (hf : ∀ y, (M.f y).length = y.length)
    (hg : ∀ y, (M.g y).length = y.length) :
    ∀ (n : ℕ) (y : State) (t : ℚ) (r : Rng), (∀ k, 0 ≤ r.uniStream k) →
      M.loop sqrt n y t r =
        ⟨timesFrom M.dt n t, eulerTraj M.f M.dt n y,
         eulerIterate M.f M.dt n y, t + n * M.dt,
         { r with normPos := r.normPos + n * y.length,
                  uniPos := r.uniPos + n }⟩ := by
  intro n
  induction n with
  | zero =>
    intro y t r _
    simp [JumpDiffusion.loop, timesFrom, eulerTraj, eulerIterate]
  | succ n ih =>
    intro y t r hu
    have hem1 := M.jd_em_zero sqrt y M.dt r hσ (hf y) (hg y)
    have hem2 := M.jd_em_rng sqrt y M.dt r
    have hj : M.apply_jump (eulerNext M.f M.dt y)
        ({ r with normPos := r.normPos + y.length }) =
        (eulerNext M.f M.dt y,
         { r with normPos := r.normPos + y.length,
                  uniPos := r.uniPos + 1 }) :=
      M.apply_jump_no_jump _ _ hlam (hu _)
    have hrec := ih (eulerNext M.f M.dt y) (t + M.dt)
        ({ r with normPos := r.normPos + y.length, uniPos := r.uniPos + 1 })
        (fun k => hu k)
    simp only [JumpDiffusion.loop, hem1, hem2, hj, hrec]
    simp only [LoopRes.mk.injEq]
    refine ⟨?_, ?_, ?_, ?_, ?_⟩
    · simp [timesFrom]
    · simp [eulerTraj]
    · simp only [eulerIterate, Function.iterate_succ_apply]
    · push_cast; ring
    · simp only [Rng.mk.injEq, and_true, true_and]
      constructor
      · rw [eulerNext_length _ _ _ (hf y)]; ring
      · omega

/-! ### Helper lemmas: the jump disabled (λ = 0) -/

theorem Rng.normals_fst_congr (r r2 : Rng) (hs : r2.normStream = r.normStream)
    (hp : r2.normPos = r.normPos) (n : ℕ) :
    (r2.normals n).1 = (r.normals n).1 := by
  simp [Rng.normals, hs, hp]

theorem JumpDiffusion.em_fst_congr (M : JumpDiffusion) (sqrt : ℚ → ℚ)
    (y : State) (dt : ℚ) (r r2 : Rng) (hs : r2.normStream = r.normStream)
    (hp : r2.normPos = r.normPos) :
    (M.euler_maruyama_step sqrt y dt r2).1 =
      (M.euler_maruyama_step sqrt y dt r).1 := by
  show vAdd _ (vMul _ (sMul _ (r2.normals y.length).1)) = _
  rw [Rng.normals_fst_congr r r2 hs hp]
  rfl

theorem JumpDiffusion.loop_lambda_zero (M : JumpDiffusion) (sqrt : ℚ → ℚ)
    (hlam : M.jump_intensity = 0) :
    ∀ (n : ℕ) (y : State) (t : ℚ) (r r2 : Rng),
      r2.normStream = r.normStream → r2.normPos = r.normPos →
      (∀ k, 0 ≤ r.uniStream k) →
      (M.loop sqrt n y t r).time = (M.emOnlyLoop sqrt n y t r2).time ∧
      (M.loop sqrt n y t r).trajectory =
        (M.emOnlyLoop sqrt n y t r2).trajectory ∧
      (M.loop sqrt n y t r).y = (M.emOnlyLoop sqrt n y t r2).y ∧
      (M.loop sqrt n y t r).t = (M.emOnlyLoop sqrt n y t r2).t := by
  intro n
  induction n with
  | zero =>
    intro y t r r2 _ _ _
    simp [JumpDiffusion.loop, JumpDiffusion.emOnlyLoop]
  | succ n ih =>
    intro y t r r2 hs hp hu
    have hem2 := M.jd_em_rng sqrt y M.dt r
    have hem2b := M.jd_em_rng sqrt y M.dt r2
    have hfst := M.em_fst_congr sqrt y M.dt r r2 hs hp
    have hj : M.apply_jump ((M.euler_maruyama_step sqrt y M.dt r).1)
        ({ r with normPos := r.normPos + y.length }) =
        ((M.euler_maruyama_step sqrt y M.dt r).1,
         { r with normPos := r.normPos + y.length,
                  uniPos := r.uniPos + 1 }) :=
      M.apply_jump_no_jump _ _ hlam (hu _)
    have hrec := ih ((M.euler_maruyama_step sqrt y M.dt r).1) (t + M.dt)
        ({ r with normPos := r.normPos + y.length, uniPos := r.uniPos + 1 })
        ({ r2 with normPos := r2.normPos + y.length })
        (by simpa using hs) (by simp [hp]) (fun k => hu k)
    simp only [JumpDiffusion.loop, JumpDiffusion.emOnlyLoop, hem2, hem2b,
               hfst, hj]
    refine ⟨?_, ?_, ?_, ?_⟩
    · simp only [List.cons.injEq, true_and]
      exact hrec.1
    · simp only [List.cons.injEq, true_and]
      exact hrec.2.1
    · exact hrec.2.2.1
    · exact hrec.2.2.2

/-! ### Helper lemmas: numpy broadcasting -/

theorem npBinop_ok_iff (op : ℚ → ℚ → ℚ) (a b : List ℚ) :
    (∃ c, npBinop op a b = .ok c) ↔ compatLen a.length b.length := by
  unfold npBinop compatLen
  by_cases h1 : a.length = b.length
  · rw [if_pos h1]; simp [h1]
  · rw [if_neg h1]
    by_cases h2 : a.length = 1
    · rw [if_pos h2]; simp [h1, h2]
    · rw [if_neg h2]
      by_cases h3 : b.length = 1
      · rw [if_pos h3]; simp [h1, h2, h3]
      · rw [if_neg h3]; simp [h1, h2, h3]

theorem npBinop_error_of_not_compat (op : ℚ → ℚ → ℚ) (a b : List ℚ)
    (h : ¬ compatLen a.length b.length) :
    npBinop op a b = .error .broadcastValueError := by
  unfold npBinop
  unfold compatLen at h
  push_neg at h
  simp [h.1, h.2.1, h.2.2]

theorem npBinop_ok_length (op : ℚ → ℚ → ℚ) (a b c : List ℚ)
    (h : npBinop op a b = .ok c) : c.length = blen a.length b.length := by
  unfold npBinop at h
  unfold blen
  by_cases h1 : a.length = b.length
  · rw [if_pos h1] at h
    rw [if_pos h1]
    injection h with h4
    simp [← h4, h1]
  · rw [if_neg h1] at h
    rw [if_neg h1]
    by_cases h2 : a.length = 1
    · rw [if_pos h2] at h
      rw [if_pos h2]
      injection h with h4
      simp [← h4]
    · rw [if_neg h2] at h
      rw [if_neg h2]
      by_cases h3 : b.length = 1
      · rw [if_pos h3] at h
        injection h with h4
        simp [← h4]
      · rw [if_neg h3] at h
        exact absurd h (by simp)

theorem emCheckedCore_char (y fyd gy noise : List ℚ) :
    ((∃ c, emCheckedCore y fyd gy noise = .ok c) ↔
      (compatLen y.length fyd.length ∧ compatLen gy.length noise.length ∧
       compatLen (blen y.length fyd.length) (blen gy.length noise.length))) ∧
    (¬ (compatLen y.length fyd.length ∧ compatLen gy.length noise.length ∧
        compatLen (blen y.length fyd.length)
          (blen gy.length noise.length)) →
      emCheckedCore y fyd gy noise = .error .broadcastValueError) := by
  by_cases c1 : compatLen y.length fyd.length
  · obtain ⟨s1, hs1⟩ := (npBinop_ok_iff (· + ·) y fyd).mpr c1
    have hs1l := npBinop_ok_length _ _ _ _ hs1
    by_cases c2 : compatLen gy.length noise.length
    · obtain ⟨gn, hgn⟩ := (npBinop_ok_iff (· * ·) gy noise).mpr c2
      have hgnl := npBinop_ok_length _ _ _ _ hgn
      by_cases c3 : compatLen (blen y.length fyd.length)
          (blen gy.length noise.length)
      · obtain ⟨out, hout⟩ := (npBinop_ok_iff (· + ·) s1 gn).mpr
          (by rw [hs1l, hgnl]; exact c3)
        constructor
        · simp [emCheckedCore, hs1, hgn, hout, Except.bind, c1, c2, c3]
        · intro hn; exact absurd ⟨c1, c2, c3⟩ hn
      · have hout := npBinop_error_of_not_compat (· + ·) s1 gn
          (by rw [hs1l, hgnl]; exact c3)
        constructor
        · simp [emCheckedCore, hs1, hgn, hout, Except.bind, c3]
        · intro _; simp [emCheckedCore, hs1, hgn, hout, Except.bind]
    · have hgn := npBinop_error_of_not_compat (· * ·) gy noise c2
      constructor
      · simp [emCheckedCore, hs1, hgn, Except.bind, c2]
      · intro _; simp [emCheckedCore, hs1, hgn, Except.bind]
  · have hs1 := npBinop_error_of_not_compat (· + ·) y fyd c1
    constructor
    · simp [emCheckedCore, hs1, Except.bind, c1]
    · intro _; simp [emCheckedCore, hs1, Except.bind]

/-- C1 (amended): neither constructor performs any parameter validation.
Construction fails only when `dt = 0` — with Python's `ZeroDivisionError`
from `int((t1 - t0) / dt)`, never with `InvalidParameterError` — and in
particular `t1 < t0`, `σ = -1` and `λ = -1` are accepted. -/
theorem construction_no_validation :
    (∀ (f g : State → State) (c : State → ℚ → Bool) (j : State → ℚ → State)
       (y0 : State) (t0 t1 dt σ : ℚ),
       ((∃ e, HybridEquation.init f g c j y0 t0 t1 dt σ = .error e) ↔ dt = 0) ∧
       HybridEquation.init f g c j y0 t0 t1 dt σ ≠
         .error .invalidParameterError) ∧
    (∀ (f g : State → State) (lam : ℚ) (js : State → State)
       (y0 : State) (t0 t1 dt σ : ℚ),
       ((∃ e, JumpDiffusion.init f g lam js y0 t0 t1 dt σ = .error e) ↔ dt = 0) ∧
       JumpDiffusion.init f g lam js y0 t0 t1 dt σ ≠
         .error .invalidParameterError) := by
  constructor
  · intro f g c j y0 t0 t1 dt σ
    unfold HybridEquation.init
    by_cases h : dt = 0 <;> simp [h]
  · intro f g lam js y0 t0 t1 dt σ
    unfold JumpDiffusion.init
    by_cases h : dt = 0 <;> simp [h]

/-- C1 counterexample: a `HybridEquation` built with `t1 < t0` and `σ = -1`,
and a `JumpDiffusion` built with `t1 < t0`, `σ = -1` and `λ = -1`, are both
accepted (no `InvalidParameterError`), and the hybrid `solve` still returns a
trajectory (here the single recorded pair `(t0, y0)`). -/
theorem construction_no_validation_cex :
    (∃ m, HybridEquation.init (fun y => y) (fun y => y) (fun _ _ => false)
        (fun y _ => y) [1] 0 (-1) 1 (-1) = .ok m) ∧
    (∃ m, JumpDiffusion.init (fun y => y) (fun y => y) (-1) (fun y => y)
        [1] 0 (-1) 1 (-1) = .ok m) ∧
    ((⟨fun y => y, fun y => y, fun _ _ => false, fun y _ => y,
        [1], 0, -1, 1, -1⟩ : HybridEquation).solve (fun _ => 0)
      (⟨fun y => y, fun y => y, fun _ _ => false, fun y _ => y,
        [1], 0, -1, 1, -1⟩ : HybridEquation).initState
      ⟨fun _ => 0, 0, fun _ => 0, 0⟩).1 = ([0], [[1]]) := by
  have h1 : HybridEquation.init (fun y => y) (fun y => y) (fun _ _ => false)
      (fun y _ => y) [1] 0 (-1) 1 (-1) =
      .ok ⟨fun y => y, fun y => y, fun _ _ => false, fun y _ => y,
           [1], 0, -1, 1, -1⟩ := by
    norm_num [HybridEquation.init]
  have h2 : JumpDiffusion.init (fun y => y) (fun y => y) (-1) (fun y => y)
      [1] 0 (-1) 1 (-1) =
      .ok ⟨fun y => y, fun y => y, -1, fun y => y, [1], 0, -1, 1, -1⟩ := by
    norm_num [JumpDiffusion.init]
  refine ⟨⟨_, h1⟩, ⟨_, h2⟩, ?_⟩
  have hsteps : ((⟨fun y => y, fun y => y, fun _ _ => false, fun y _ => y,
      [1], 0, -1, 1, -1⟩ : HybridEquation).steps) = -1 := by
    norm_num [HybridEquation.steps, intTrunc]
  simp [HybridEquation.solve, hsteps, HybridEquation.initState,
        HybridEquation.loop]

theorem JumpDiffusion.jd_solve_time_get (M : JumpDiffusion) (sqrt : ℚ → ℚ)
    (r : Rng) (i : ℕ) (h : i ≤ M.steps.toNat) :
    (M.solve sqrt M.initState r).1.1.get? i =
      some (((M.stepFn sqrt)^[i] (M.y0, M.t0, r)).2.1) := by
  rcases Nat.eq_zero_or_pos i with hi | hi
  · subst hi
    simp [JumpDiffusion.solve, JumpDiffusion.initState]
  · obtain ⟨j, rfl⟩ : ∃ j, i = j + 1 := ⟨i - 1, by omega⟩
    show ((M.initState.time ++ _ : List ℚ)).get? (j + 1) = _
    rw [show M.initState.time = [M.t0] from rfl]
    simp only [List.cons_append, List.nil_append, List.get?_cons_succ]
    exact M.jd_loop_time_get sqrt _ _ _ _ j (by omega)

theorem JumpDiffusion.jd_solve_traj_get (M : JumpDiffusion) (sqrt : ℚ → ℚ)
    (r : Rng) (i : ℕ) (h : i ≤ M.steps.toNat) :
    (M.solve sqrt M.initState r).1.2.get? i =
      some (((M.stepFn sqrt)^[i] (M.y0, M.t0, r)).1) := by
  rcases Nat.eq_zero_or_pos i with hi | hi
  · subst hi
    simp [JumpDiffusion.solve, JumpDiffusion.initState]
  · obtain ⟨j, rfl⟩ : ∃ j, i = j + 1 := ⟨i - 1, by omega⟩
    show ((M.initState.trajectory ++ _ : List State)).get? (j + 1) = _
    rw [show M.initState.trajectory = [M.y0] from rfl]
    simp only [List.cons_append, List.nil_append, List.get?_cons_succ]
    exact M.jd_loop_traj_get sqrt _ _ _ _ j (by omega)

theorem HybridEquation.steps_eq_floor (M : HybridEquation)
    (hdt : 0 < M.dt) (ht : M.t0 < M.t1) :
    M.steps = ⌊(M.t1 - M.t0) / M.dt⌋ :=
  intTrunc_eq_floor _ (div_pos (by linarith) hdt).le

theorem JumpDiffusion.jd_steps_eq_floor (M : JumpDiffusion)
    (hdt : 0 < M.dt) (ht : M.t0 < M.t1) :
    M.steps = ⌊(M.t1 - M.t0) / M.dt⌋ :=
  intTrunc_eq_floor _ (div_pos (by linarith) hdt).le

/-- C2: with `dt > 0` and `t1 > t0`, both simulators return a trajectory of
exactly `⌊(t1 - t0)/dt⌋ + 1` entries, with the times and states lists of
equal length, first entry `(t0, y0)`, and the recorded time at step index `k`
equal to `t0 + k * dt` (so the times increase by exactly `dt` per step). -/
theorem solve_trajectory_grid (M : HybridEquation) (N : JumpDiffusion)
    (sqrt : ℚ → ℚ) (r : Rng)
    (hdt : 0 < M.dt) (ht : M.t0 < M.t1)
    (hdtN : 0 < N.dt) (htN : N.t0 < N.t1) :
    ((M.solve sqrt M.initState r).1.1.length =
        (⌊(M.t1 - M.t0) / M.dt⌋).toNat + 1 ∧
     (M.solve sqrt M.initState r).1.2.length =
        (M.solve sqrt M.initState r).1.1.length ∧
     (M.solve sqrt M.initState r).1.1.get? 0 = some M.t0 ∧
     (M.solve sqrt M.initState r).1.2.get? 0 = some M.y0 ∧
     (∀ k, k < (M.solve sqrt M.initState r).1.1.length →
       (M.solve sqrt M.initState r).1.1.get? k = some (M.t0 + k * M.dt))) ∧
    ((N.solve sqrt N.initState r).1.1.length =
        (⌊(N.t1 - N.t0) / N.dt⌋).toNat + 1 ∧
     (N.solve sqrt N.initState r).1.2.length =
        (N.solve sqrt N.initState r).1.1.length ∧
     (N.solve sqrt N.initState r).1.1.get? 0 = some N.t0 ∧
     (N.solve sqrt N.initState r).1.2.get? 0 = some N.y0 ∧
     (∀ k, k < (N.solve sqrt N.initState r).1.1.length →
       (N.solve sqrt N.initState r).1.1.get? k = some (N.t0 + k * N.dt))) := by
  have hsf := M.steps_eq_floor hdt ht
  have hsfN := N.jd_steps_eq_floor hdtN htN
  have hlen : (M.solve sqrt M.initState r).1.1.length = M.steps.toNat + 1 := by
    rw [M.solve_time_length]
    simp [HybridEquation.initState, Nat.add_comm]
  have hlenN : (N.solve sqrt N.initState r).1.1.length = N.steps.toNat + 1 := by
    rw [N.jd_solve_time_length]
    simp [JumpDiffusion.initState, Nat.add_comm]
  refine ⟨⟨?_, ?_, ?_, ?_, ?_⟩, ⟨?_, ?_, ?_, ?_, ?_⟩⟩
  · rw [hlen, hsf]
  · rw [M.solve_traj_length, hlen]
    simp [HybridEquation.initState, Nat.add_comm]
  · rw [M.solve_time_get sqrt r 0 (by omega)]
    simp
  · rw [M.solve_traj_get sqrt r 0 (by omega)]
    simp
  · intro k hk
    rw [hlen] at hk
    rw [M.solve_time_get sqrt r k (by omega),
        M.stepFn_iterate_time sqrt M.y0 M.t0 r k]
  · rw [hlenN, hsfN]
  · rw [N.jd_solve_traj_length, hlenN]
    simp [JumpDiffusion.initState, Nat.add_comm]
  · rw [N.jd_solve_time_get sqrt r 0 (by omega)]
    simp
  · rw [N.jd_solve_traj_get sqrt r 0 (by omega)]
    simp
  · intro k hk
    rw [hlenN] at hk
    rw [N.jd_solve_time_get sqrt r k (by omega),
        N.jd_stepFn_iterate_time sqrt N.y0 N.t0 r k]

/-- C2 witness: a hybrid and a jump-diffusion instance with `t0 = 0`,
`t1 = 1`, `dt = 1/2` satisfy the hypotheses, and the returned time list has
`⌊(1 - 0)/(1/2)⌋ + 1 = 3` entries. -/
theorem solve_trajectory_grid_witness :
    (0 : ℚ) < 1/2 ∧ (0 : ℚ) < 1 ∧
    ((⟨fun y => y, fun y => y, fun _ _ => false, fun y _ => y,
        [1], 0, 1, 1/2, 0⟩ : HybridEquation).solve (fun _ => 0)
      (⟨fun y => y, fun y => y, fun _ _ => false, fun y _ => y,
        [1], 0, 1, 1/2, 0⟩ : HybridEquation).initState
      ⟨fun _ => 0, 0, fun _ => 0, 0⟩).1.1.length = 3 := by
  refine ⟨by norm_num, by norm_num, ?_⟩
  have h := (solve_trajectory_grid
    (⟨fun y => y, fun y => y, fun _ _ => false, fun y _ => y,
        [1], 0, 1, 1/2, 0⟩ : HybridEquation)
    (⟨fun y => y, fun y => y, 0, fun y => y, [1], 0, 1, 1/2, 0⟩ : JumpDiffusion)
    (fun _ => 0) ⟨fun _ => 0, 0, fun _ => 0, 0⟩
    (by norm_num) (by norm_num) (by norm_num) (by norm_num)).1.1
  rw [h]
  norm_num
  decide

/-- C3: in the hybrid simulator, whenever the jump condition holds on the
pre-step state and time, that step's new state is exactly
`jump_map(prev_y, prev_t)`: this holds between consecutive trajectory
entries, and the step function with any noise intensity `c` substituted
returns the jump-map state while leaving the random generator untouched, so
the update is independent of σ and consumes no noise draw (the
Euler–Maruyama branch is skipped; exactly one update happens per step). -/
theorem hybrid_jump_mutual_exclusion (M : HybridEquation) (sqrt : ℚ → ℚ)
    (r : Rng) :
    (∀ (c : ℚ) (y : State) (t : ℚ) (ρ : Rng),
       M.jump_condition y t = true →
       HybridEquation.stepFn { M with noise_intensity := c } sqrt (y, t, ρ) =
         (M.jump_map y t, t + M.dt, ρ)) ∧
    (∀ (i : ℕ) (yi : State) (ti : ℚ),
       i + 1 ≤ M.steps.toNat →
       (M.solve sqrt M.initState r).1.1.get? i = some ti →
       (M.solve sqrt M.initState r).1.2.get? i = some yi →
       M.jump_condition yi ti = true →
       (M.solve sqrt M.initState r).1.2.get? (i + 1) =
         some (M.jump_map yi ti)) := by
  constructor
  · intro c y t ρ h
    simp [HybridEquation.stepFn, h]
  · intro i yi ti hstep hti hyi hcond
    have hgi := M.solve_traj_get sqrt r i (by omega)
    have hgi1 := M.solve_traj_get sqrt r (i + 1) (by omega)
    have hti' := M.solve_time_get sqrt r i (by omega)
    have h1 : ((M.stepFn sqrt)^[i] (M.y0, M.t0, r)).1 = yi := by
      have := hgi.symm.trans hyi
      exact Option.some.inj this
    have h2 : ((M.stepFn sqrt)^[i] (M.y0, M.t0, r)).2.1 = ti := by
      have := hti'.symm.trans hti
      exact Option.some.inj this
    rw [hgi1, Function.iterate_succ_apply']
    have : (M.stepFn sqrt ((M.stepFn sqrt)^[i] (M.y0, M.t0, r))).1 =
        M.jump_map yi ti := by
      simp [HybridEquation.stepFn, h1, h2, hcond]
    rw [this]

/-- C3 witness: a hybrid instance whose condition always holds and whose jump
map is the identity takes the jump branch: the step at state `[1]`, time `0`
returns the jump-map state with the generator untouched (for noise intensity
`5` substituted), and in a two-step run the trajectory entry after index 0 is
the jump-map state. -/
theorem hybrid_jump_mutual_exclusion_witness :
    (HybridEquation.stepFn
      { (⟨fun y => y, fun y => y, fun _ _ => true, fun y _ => y,
          [1], 0, 2, 1, 0⟩ : HybridEquation) with noise_intensity := 5 }
      (fun _ => 0) ([1], 0, ⟨fun _ => 0, 0, fun _ => 0, 0⟩) =
      ([1], 0 + 1, ⟨fun _ => 0, 0, fun _ => 0, 0⟩)) ∧
    ((⟨fun y => y, fun y => y, fun _ _ => true, fun y _ => y,
        [1], 0, 2, 1, 0⟩ : HybridEquation).solve (fun _ => 0)
      (⟨fun y => y, fun y => y, fun _ _ => true, fun y _ => y,
        [1], 0, 2, 1, 0⟩ : HybridEquation).initState
      ⟨fun _ => 0, 0, fun _ => 0, 0⟩).1.2.get? 1 = some [1] := by
  constructor
  · exact (hybrid_jump_mutual_exclusion
      (⟨fun y => y, fun y => y, fun _ _ => true, fun y _ => y,
        [1], 0, 2, 1, 0⟩ : HybridEquation) (fun _ => 0)
      ⟨fun _ => 0, 0, fun _ => 0, 0⟩).1 5 [1] 0
      ⟨fun _ => 0, 0, fun _ => 0, 0⟩ rfl
  · refine (hybrid_jump_mutual_exclusion
      (⟨fun y => y, fun y => y, fun _ _ => true, fun y _ => y,
        [1], 0, 2, 1, 0⟩ : HybridEquation) (fun _ => 0)
      ⟨fun _ => 0, 0, fun _ => 0, 0⟩).2 0 [1] 0 ?_ ?_ ?_ rfl
    · norm_num [HybridEquation.steps, intTrunc]
    · simp [HybridEquation.solve, HybridEquation.initState]
    · simp [HybridEquation.solve, HybridEquation.initState]

/-- C4: in both simulators, one Euler–Maruyama step on a state `y` whose
drift and diffusion outputs match `y` in dimension returns the vector whose
`i`-th component is `y_i + drift(y)_i·dt + diffusion(y)_i·(σ·sqrt(dt)·ξ_i)`,
where `ξ` is the standard-normal draw of the same dimension as `y` (the next
`y.length` values of the normal stream), and advances the normal cursor by
exactly that draw. -/
theorem euler_maruyama_formula (M : HybridEquation) (N : JumpDiffusion)
    (sqrt : ℚ → ℚ) (y : State) (dt : ℚ) (r : Rng)
    (hf : (M.f_continuous y).length = y.length)
    (hg : (M.g_stochastic y).length = y.length)
    (hfN : (N.f y).length = y.length)
    (hgN : (N.g y).length = y.length) :
    ((M.euler_maruyama_step sqrt y dt r).1.length = y.length ∧
     (M.euler_maruyama_step sqrt y dt r).2 =
       { r with normPos := r.normPos + y.length } ∧
     ∀ i, i < y.length →
       (M.euler_maruyama_step sqrt y dt r).1.getD i 0 =
         y.getD i 0 + (M.f_continuous y).getD i 0 * dt
           + (M.g_stochastic y).getD i 0 *
               (M.noise_intensity * sqrt dt * r.normStream (r.normPos + i))) ∧
    ((N.euler_maruyama_step sqrt y dt r).1.length = y.length ∧
     (N.euler_maruyama_step sqrt y dt r).2 =
       { r with normPos := r.normPos + y.length } ∧
     ∀ i, i < y.length →
       (N.euler_maruyama_step sqrt y dt r).1.getD i 0 =
         y.getD i 0 + (N.f y).getD i 0 * dt
           + (N.g y).getD i 0 *
               (N.noise_intensity * sqrt dt * r.normStream (r.normPos + i))) :=
  ⟨⟨M.em_length sqrt y dt r hf hg, M.em_rng sqrt y dt r,
    fun i hi => M.em_getD sqrt y dt r hf hg i hi⟩,
   ⟨N.jd_em_length sqrt y dt r hfN hgN, N.jd_em_rng sqrt y dt r,
    fun i hi => N.jd_em_getD sqrt y dt r hfN hgN i hi⟩⟩

/-- C4 witness: for `y = [1, 2]`, identity drift and diffusion, `σ = 2`,
`dt = 4`, a constant `sqrt` function returning `3` and a normal stream
constantly `5`, the first component of the step is
`1 + 1·4 + 1·(2·3·5) = 35`. -/
theorem euler_maruyama_formula_witness :
    ((⟨fun y => y, fun y => y, fun _ _ => false, fun y _ => y,
        [1, 2], 0, 1, 1, 2⟩ : HybridEquation).euler_maruyama_step
      (fun _ => 3) [1, 2] 4 ⟨fun _ => 5, 0, fun _ => 0, 0⟩).1.getD 0 0 = 35 := by
  have h := (euler_maruyama_formula
    (⟨fun y => y, fun y => y, fun _ _ => false, fun y _ => y,
        [1, 2], 0, 1, 1, 2⟩ : HybridEquation)
    (⟨fun y => y, fun y => y, 0, fun y => y, [1, 2], 0, 1, 1, 2⟩ :
        JumpDiffusion)
    (fun _ => 3) [1, 2] 4 ⟨fun _ => 5, 0, fun _ => 0, 0⟩
    rfl rfl rfl rfl).1.2.2 0 (by norm_num)
  rw [h]
  norm_num

/-- C5: every jump-diffusion step applies the Euler–Maruyama update first and
then the intensity-triggered jump on top of its result: `apply_jump` draws
the next uniform value `u` and returns `y + jump_size(y)` exactly when
`u < λ·dt` (else `y` unchanged, either way advancing the uniform cursor), the
per-step transition is `apply_jump` composed after `euler_maruyama_step`
(never in place of it), and every recorded trajectory entry is an iterate of
that composed step. -/
theorem jump_diffusion_step_order (M : JumpDiffusion) (sqrt : ℚ → ℚ) :
    (∀ (y : State) (r : Rng),
       M.apply_jump y r =
         ((if r.uniStream r.uniPos < M.jump_intensity * M.dt
            then vAdd y (M.jump_size y) else y),
          { r with uniPos := r.uniPos + 1 })) ∧
    (∀ (s : State × ℚ × Rng),
       M.stepFn sqrt s =
         ((M.apply_jump (M.euler_maruyama_step sqrt s.1 M.dt s.2.2).1
             (M.euler_maruyama_step sqrt s.1 M.dt s.2.2).2).1,
          s.2.1 + M.dt,
          (M.apply_jump (M.euler_maruyama_step sqrt s.1 M.dt s.2.2).1
             (M.euler_maruyama_step sqrt s.1 M.dt s.2.2).2).2)) ∧
    (∀ (n : ℕ) (y : State) (t : ℚ) (r : Rng) (i : ℕ), i < n →
       (M.loop sqrt n y t r).trajectory.get? i =
         some ((((M.stepFn sqrt)^[i + 1]) (y, t, r)).1)) := by
  refine ⟨?_, ?_, ?_⟩
  · intro y r
    unfold JumpDiffusion.apply_jump Rng.uniform
    by_cases h : r.uniStream r.uniPos < M.jump_intensity * M.dt
    · rw [if_pos h, if_pos h]
    · rw [if_neg h, if_neg h]
  · intro s
    rfl
  · exact M.jd_loop_traj_get sqrt

/-- C5 witness: with `λ = 1`, `dt = 1`, identity jump size and a uniform
stream constantly `0`, the drawn sample `0` is below `λ·dt = 1`, so
`apply_jump [1]` returns `[1] + [1] = [2]` and advances the uniform cursor. -/
theorem jump_diffusion_step_order_witness :
    ((⟨fun y => y, fun y => y, 1, fun y => y, [1], 0, 1, 1, 0⟩ :
        JumpDiffusion).apply_jump [1] ⟨fun _ => 0, 0, fun _ => 0, 0⟩ =
      ([2], ⟨fun _ => 0, 0, fun _ => 0, 1⟩)) ∧
    ((⟨fun y => y, fun y => y, 1, fun y => y, [1], 0, 1, 1, 0⟩ :
        JumpDiffusion).loop (fun _ => 0) 1 [1] 0
        ⟨fun _ => 0, 0, fun _ => 0, 0⟩).trajectory.get? 0 =
      some (((((⟨fun y => y, fun y => y, 1, fun y => y, [1], 0, 1, 1, 0⟩ :
        JumpDiffusion).stepFn (fun _ => 0))^[1])
          ([1], 0, ⟨fun _ => 0, 0, fun _ => 0, 0⟩)).1) := by
  constructor
  · have h := (jump_diffusion_step_order
      (⟨fun y => y, fun y => y, 1, fun y => y, [1], 0, 1, 1, 0⟩ :
          JumpDiffusion) (fun _ => 0)).1 [1] ⟨fun _ => 0, 0, fun _ => 0, 0⟩
    rw [h]
    norm_num [vAdd]
  · exact (jump_diffusion_step_order
      (⟨fun y => y, fun y => y, 1, fun y => y, [1], 0, 1, 1, 0⟩ :
          JumpDiffusion) (fun _ => 0)).2.2 1 [1] 0
      ⟨fun _ => 0, 0, fun _ => 0, 0⟩ 0 (by norm_num)

theorem exceptMap_ok_iff {α β ε : Type} (x : Except ε α) (f : α → β) :
    (∃ p, x.map f = .ok p) ↔ (∃ c, x = .ok c) := by
  cases x <;> simp [Except.map]

theorem exceptMap_error {α β ε : Type} (x : Except ε α) (f : α → β) (e : ε)
    (h : x = .error e) : x.map f = .error e := by
  rw [h]; rfl

/-- C6 (amended): a drift or diffusion output whose dimension is
broadcast-compatible with the state (equal dimensions, or either one of
dimension 1) is silently stretched by numpy and the step succeeds; only when
some elementwise operation meets two incompatible dimensions does the step
fail, with numpy's broadcast `ValueError` (there is no dedicated
`ShapeError`), at the first such operation.  Stated for the shape-checked
Euler–Maruyama step of both simulators. -/
theorem shape_mismatch_broadcast (M : HybridEquation) (N : JumpDiffusion)
    (sqrt : ℚ → ℚ) (y : State) (dt : ℚ) (r : Rng) :
    (((∃ p, M.emStepChecked sqrt y dt r = .ok p) ↔
       (compatLen y.length (M.f_continuous y).length ∧
        compatLen (M.g_stochastic y).length y.length ∧
        compatLen (blen y.length (M.f_continuous y).length)
          (blen (M.g_stochastic y).length y.length))) ∧
     (¬ (compatLen y.length (M.f_continuous y).length ∧
         compatLen (M.g_stochastic y).length y.length ∧
         compatLen (blen y.length (M.f_continuous y).length)
           (blen (M.g_stochastic y).length y.length)) →
       M.emStepChecked sqrt y dt r = .error .broadcastValueError)) ∧
    (((∃ p, N.emStepChecked sqrt y dt r = .ok p) ↔
       (compatLen y.length (N.f y).length ∧
        compatLen (N.g y).length y.length ∧
        compatLen (blen y.length (N.f y).length)
          (blen (N.g y).length y.length))) ∧
     (¬ (compatLen y.length (N.f y).length ∧
         compatLen (N.g y).length y.length ∧
         compatLen (blen y.length (N.f y).length)
           (blen (N.g y).length y.length)) →
       N.emStepChecked sqrt y dt r = .error .broadcastValueError)) := by
  have hcM := emCheckedCore_char y (sMul dt (M.f_continuous y))
    (M.g_stochastic y)
    (sMul (M.noise_intensity * sqrt dt) (r.normals y.length).1)
  have hcN := emCheckedCore_char y (sMul dt (N.f y)) (N.g y)
    (sMul (N.noise_intensity * sqrt dt) (r.normals y.length).1)
  rw [sMul_length] at hcM hcN
  rw [show (sMul (M.noise_intensity * sqrt dt) (r.normals y.length).1).length
        = y.length by simp [sMul_length, normals_fst_length]] at hcM
  rw [show (sMul (N.noise_intensity * sqrt dt) (r.normals y.length).1).length
        = y.length by simp [sMul_length, normals_fst_length]] at hcN
  refine ⟨⟨?_, ?_⟩, ⟨?_, ?_⟩⟩
  · rw [show M.emStepChecked sqrt y dt r =
        (emCheckedCore y (sMul dt (M.f_continuous y)) (M.g_stochastic y)
          (sMul (M.noise_intensity * sqrt dt) (r.normals y.length).1)).map
          (fun out => (out, { r with normPos := r.normPos + y.length }))
        from rfl]
    rw [exceptMap_ok_iff]
    exact hcM.1
  · intro hn
    rw [show M.emStepChecked sqrt y dt r =
        (emCheckedCore y (sMul dt (M.f_continuous y)) (M.g_stochastic y)
          (sMul (M.noise_intensity * sqrt dt) (r.normals y.length).1)).map
          (fun out => (out, { r with normPos := r.normPos + y.length }))
        from rfl]
    exact exceptMap_error _ _ _ (hcM.2 hn)
  · rw [show N.emStepChecked sqrt y dt r =
        (emCheckedCore y (sMul dt (N.f y)) (N.g y)
          (sMul (N.noise_intensity * sqrt dt) (r.normals y.length).1)).map
          (fun out => (out, { r with normPos := r.normPos + y.length }))
        from rfl]
    rw [exceptMap_ok_iff]
    exact hcN.1
  · intro hn
    rw [show N.emStepChecked sqrt y dt r =
        (emCheckedCore y (sMul dt (N.f y)) (N.g y)
          (sMul (N.noise_intensity * sqrt dt) (r.normals y.length).1)).map
          (fun out => (out, { r with normPos := r.normPos + y.length }))
        from rfl]
    exact exceptMap_error _ _ _ (hcN.2 hn)

/-- C6 counterexample: a state of dimension 2 with a drift returning a
dimension-1 vector — a dimension disagreement between `y` and `drift(y)` —
does not fail at all: numpy broadcasts the drift output and the checked
Euler–Maruyama step succeeds, returning `[1+3, 2+3] = [4, 5]`. -/
theorem shape_mismatch_broadcast_cex :
    (⟨fun _ => [3], fun y => y, fun _ _ => false, fun y _ => y,
        [1, 2], 0, 1, 1, 1⟩ : HybridEquation).emStepChecked
      (fun _ => 1) [1, 2] 1 ⟨fun _ => 0, 0, fun _ => 0, 0⟩ =
      .ok ([4, 5], ⟨fun _ => 0, 2, fun _ => 0, 0⟩) := by
  norm_num [HybridEquation.emStepChecked, emCheckedCore, npBinop, sMul,
            Rng.normals, Except.bind, Except.map, List.range_succ]

/-- C7 (amended): with σ = 0 and the jump trigger never firing (condition
always false for the hybrid simulator; λ = 0 for the jump-diffusion one),
the simulation is a pure deterministic Euler method: two runs agree exactly,
whatever the random streams (and whatever `np.sqrt` returns), and the
recorded states are the Euler iterates of `y0`.  However, randomness IS
still consumed: the hybrid run advances the normal cursor by one
`dim`-sized draw per step, and the jump-diffusion run additionally advances
the uniform cursor by one per step. -/
theorem zero_noise_determinism (M : HybridEquation) (N : JumpDiffusion)
    (sqrt sqrt2 : ℚ → ℚ) (r r2 : Rng)
    (hσ : M.noise_intensity = 0)
    (hc : ∀ y t, M.jump_condition y t = false)
    (hf : ∀ y, (M.f_continuous y).length = y.length)
    (hg : ∀ y, (M.g_stochastic y).length = y.length)
    (hσN : N.noise_intensity = 0) (hlamN : N.jump_intensity = 0)
    (hfN : ∀ y, (N.f y).length = y.length)
    (hgN : ∀ y, (N.g y).length = y.length)
    (hu : ∀ k, 0 ≤ r.uniStream k) (hu2 : ∀ k, 0 ≤ r2.uniStream k) :
    ((M.solve sqrt M.initState r).1 = (M.solve sqrt2 M.initState r2).1 ∧
     (M.solve sqrt M.initState r).1.2 =
       M.y0 :: eulerTraj M.f_continuous M.dt M.steps.toNat M.y0 ∧
     (M.solve sqrt M.initState r).2.2.normPos =
       r.normPos + M.steps.toNat * M.y0.length ∧
     (M.solve sqrt M.initState r).2.2.uniPos = r.uniPos) ∧
    ((N.solve sqrt N.initState r).1 = (N.solve sqrt2 N.initState r2).1 ∧
     (N.solve sqrt N.initState r).1.2 =
       N.y0 :: eulerTraj N.f N.dt N.steps.toNat N.y0 ∧
     (N.solve sqrt N.initState r).2.2.normPos =
       r.normPos + N.steps.toNat * N.y0.length ∧
     (N.solve sqrt N.initState r).2.2.uniPos = r.uniPos + N.steps.toNat) := by
  have hA := M.loop_zero_noise sqrt hσ hc hf hg M.steps.toNat M.y0 M.t0 r
  have hA2 := M.loop_zero_noise sqrt2 hσ hc hf hg M.steps.toNat M.y0 M.t0 r2
  have hB1 := N.jd_loop_zero_noise sqrt hσN hlamN hfN hgN N.steps.toNat N.y0
    N.t0 r hu
  have hB2 := N.jd_loop_zero_noise sqrt2 hσN hlamN hfN hgN N.steps.toNat N.y0
    N.t0 r2 hu2
  refine ⟨⟨?_, ?_, ?_, ?_⟩, ⟨?_, ?_, ?_, ?_⟩⟩
  · simp [HybridEquation.solve, HybridEquation.initState, hA, hA2]
  · simp [HybridEquation.solve, HybridEquation.initState, hA]
  · simp [HybridEquation.solve, HybridEquation.initState, hA]
  · simp [HybridEquation.solve, HybridEquation.initState, hA]
  · simp [JumpDiffusion.solve, JumpDiffusion.initState, hB1, hB2]
  · simp [JumpDiffusion.solve, JumpDiffusion.initState, hB1]
  · simp [JumpDiffusion.solve, JumpDiffusion.initState, hB1]
  · simp [JumpDiffusion.solve, JumpDiffusion.initState, hB1]

/-- C7 witness: for a concrete hybrid and jump-diffusion pair with σ = 0,
a never-firing condition, λ = 0 and constant-zero streams, the hybrid run
leaves the uniform cursor untouched. -/
theorem zero_noise_determinism_witness :
    ((⟨fun y => y, fun y => y, fun _ _ => false, fun y _ => y,
        [1], 0, 1, 1, 0⟩ : HybridEquation).solve (fun _ => 0)
      (⟨fun y => y, fun y => y, fun _ _ => false, fun y _ => y,
        [1], 0, 1, 1, 0⟩ : HybridEquation).initState
      ⟨fun _ => 0, 0, fun _ => 0, 0⟩).2.2.uniPos = 0 :=
  (zero_noise_determinism
    (⟨fun y => y, fun y => y, fun _ _ => false, fun y _ => y,
        [1], 0, 1, 1, 0⟩ : HybridEquation)
    (⟨fun y => y, fun y => y, 0, fun y => y, [1], 0, 1, 1, 0⟩ : JumpDiffusion)
    (fun _ => 0) (fun _ => 0)
    ⟨fun _ => 0, 0, fun _ => 0, 0⟩ ⟨fun _ => 0, 0, fun _ => 0, 0⟩
    rfl (fun _ _ => rfl) (fun _ => rfl) (fun _ => rfl)
    rfl rfl (fun _ => rfl) (fun _ => rfl)
    (fun _ => le_refl 0) (fun _ => le_refl 0)).1.2.2.2

/-- C7 counterexample: in the same zero-noise, never-jumping hybrid run the
normal cursor ends at 1, not 0 — the `np.random.normal` draw is made (and
multiplied by zero) even though σ = 0, so randomness IS consumed. -/
theorem zero_noise_determinism_cex :
    ((⟨fun y => y, fun y => y, fun _ _ => false, fun y _ => y,
        [1], 0, 1, 1, 0⟩ : HybridEquation).solve (fun _ => 0)
      (⟨fun y => y, fun y => y, fun _ _ => false, fun y _ => y,
        [1], 0, 1, 1, 0⟩ : HybridEquation).initState
      ⟨fun _ => 0, 0, fun _ => 0, 0⟩).2.2.normPos ≠ 0 := by
  have hsteps : ((⟨fun y => y, fun y => y, fun _ _ => false, fun y _ => y,
      [1], 0, 1, 1, 0⟩ : HybridEquation).steps) = 1 := by
    norm_num [HybridEquation.steps, intTrunc]
  simp [HybridEquation.solve, hsteps, HybridEquation.initState,
        HybridEquation.loop, HybridEquation.euler_maruyama_step, Rng.normals]

/-- C8: with λ = 0 every uniform draw `u ∈ [0, 1)` fails the test
`u < λ·dt = 0`, so the jump never fires and the jump-diffusion solve returns
exactly, entry by entry, the output of the StepIntegrator-only reference
solver fed the same normal stream (the same noise draws). -/
theorem lambda_zero_reduces_to_em (M : JumpDiffusion) (sqrt : ℚ → ℚ)
    (s : SimState) (r : Rng) (hlam : M.jump_intensity = 0)
    (hu : ∀ k, 0 ≤ r.uniStream k) :
    (M.solve sqrt s r).1 = (M.emOnlySolve sqrt s r).1 := by
  have h := M.loop_lambda_zero sqrt hlam M.steps.toNat s.y s.t r r rfl rfl hu
  simp only [JumpDiffusion.solve, JumpDiffusion.emOnlySolve, h.1, h.2.1]

/-- C8 witness: a concrete λ = 0 jump-diffusion instance with a nonnegative
uniform stream satisfies the hypotheses, and its solve output coincides with
the Euler–Maruyama-only reference output. -/
theorem lambda_zero_reduces_to_em_witness :
    ((⟨fun y => y, fun y => y, 0, fun y => y, [1], 0, 1, 1, 1⟩ :
        JumpDiffusion).solve (fun _ => 1)
      (⟨fun y => y, fun y => y, 0, fun y => y, [1], 0, 1, 1, 1⟩ :
        JumpDiffusion).initState ⟨fun _ => 0, 0, fun _ => 0, 0⟩).1 =
    ((⟨fun y => y, fun y => y, 0, fun y => y, [1], 0, 1, 1, 1⟩ :
        JumpDiffusion).emOnlySolve (fun _ => 1)
      (⟨fun y => y, fun y => y, 0, fun y => y, [1], 0, 1, 1, 1⟩ :
        JumpDiffusion).initState ⟨fun _ => 0, 0, fun _ => 0, 0⟩).1 :=
  lambda_zero_reduces_to_em
    (⟨fun y => y, fun y => y, 0, fun y => y, [1], 0, 1, 1, 1⟩ : JumpDiffusion)
    (fun _ => 1)
    (⟨fun y => y, fun y => y, 0, fun y => y, [1], 0, 1, 1, 1⟩ :
      JumpDiffusion).initState
    ⟨fun _ => 0, 0, fun _ => 0, 0⟩ rfl (fun _ => le_refl 0)

/-- C9 (amended): `solve` does not reset the instance: a second call runs
`steps` more iterations starting from the first run's final state and time
and appends to the retained buffers, returning a trajectory of length
`2·steps + 1` whose first `steps + 1` entries are the first run's output and
whose final recorded clock sits at `t0 + 2·steps·dt` — not a fresh run of
the same length. -/
theorem solve_reuse_appends (M : HybridEquation) (N : JumpDiffusion)
    (sqrt : ℚ → ℚ) (r : Rng) :
    ((M.solve sqrt (M.solve sqrt M.initState r).2.1
        (M.solve sqrt M.initState r).2.2).1.1.length =
       2 * M.steps.toNat + 1 ∧
     (M.solve sqrt (M.solve sqrt M.initState r).2.1
        (M.solve sqrt M.initState r).2.2).1.1.take (M.steps.toNat + 1) =
       (M.solve sqrt M.initState r).1.1 ∧
     (M.solve sqrt (M.solve sqrt M.initState r).2.1
        (M.solve sqrt M.initState r).2.2).1.2.take (M.steps.toNat + 1) =
       (M.solve sqrt M.initState r).1.2 ∧
     (M.solve sqrt (M.solve sqrt M.initState r).2.1
        (M.solve sqrt M.initState r).2.2).2.1.t =
       M.t0 + (2 * M.steps.toNat) * M.dt) ∧
    ((N.solve sqrt (N.solve sqrt N.initState r).2.1
        (N.solve sqrt N.initState r).2.2).1.1.length =
       2 * N.steps.toNat + 1 ∧
     (N.solve sqrt (N.solve sqrt N.initState r).2.1
        (N.solve sqrt N.initState r).2.2).1.1.take (N.steps.toNat + 1) =
       (N.solve sqrt N.initState r).1.1 ∧
     (N.solve sqrt (N.solve sqrt N.initState r).2.1
        (N.solve sqrt N.initState r).2.2).1.2.take (N.steps.toNat + 1) =
       (N.solve sqrt N.initState r).1.2 ∧
     (N.solve sqrt (N.solve sqrt N.initState r).2.1
        (N.solve sqrt N.initState r).2.2).2.1.t =
       N.t0 + (2 * N.steps.toNat) * N.dt) := by
  refine ⟨⟨?_, ?_, ?_, ?_⟩, ⟨?_, ?_, ?_, ?_⟩⟩
  · simp only [HybridEquation.solve, HybridEquation.initState]
    simp [M.loop_time_length, List.length_append]
    omega
  · simp only [HybridEquation.solve, HybridEquation.initState]
    rw [List.take_left']
    simp [M.loop_time_length]
  · simp only [HybridEquation.solve, HybridEquation.initState]
    rw [List.take_left']
    simp [M.loop_traj_length]
  · simp only [HybridEquation.solve, HybridEquation.initState]
    rw [M.loop_final_t, M.loop_final_t]
    ring
  · simp only [JumpDiffusion.solve, JumpDiffusion.initState]
    simp [N.jd_loop_time_length, List.length_append]
    omega
  · simp only [JumpDiffusion.solve, JumpDiffusion.initState]
    rw [List.take_left']
    simp [N.jd_loop_time_length]
  · simp only [JumpDiffusion.solve, JumpDiffusion.initState]
    rw [List.take_left']
    simp [N.jd_loop_traj_length]
  · simp only [JumpDiffusion.solve, JumpDiffusion.initState]
    rw [N.jd_loop_final_t, N.jd_loop_final_t]
    ring

/-- C9 counterexample: for a one-step hybrid instance, the second call to
`solve` returns a time list of length 3 while the first returned length 2 —
the second call is not a fresh run of the same length. -/
theorem solve_reuse_appends_cex :
    ((⟨fun y => y, fun y => y, fun _ _ => false, fun y _ => y,
        [1], 0, 1, 1, 0⟩ : HybridEquation).solve (fun _ => 0)
      ((⟨fun y => y, fun y => y, fun _ _ => false, fun y _ => y,
          [1], 0, 1, 1, 0⟩ : HybridEquation).solve (fun _ => 0)
        (⟨fun y => y, fun y => y, fun _ _ => false, fun y _ => y,
          [1], 0, 1, 1, 0⟩ : HybridEquation).initState
        ⟨fun _ => 0, 0, fun _ => 0, 0⟩).2.1
      ((⟨fun y => y, fun y => y, fun _ _ => false, fun y _ => y,
          [1], 0, 1, 1, 0⟩ : HybridEquation).solve (fun _ => 0)
        (⟨fun y => y, fun y => y, fun _ _ => false, fun y _ => y,
          [1], 0, 1, 1, 0⟩ : HybridEquation).initState
        ⟨fun _ => 0, 0, fun _ => 0, 0⟩).2.2).1.1.length ≠
    ((⟨fun y => y, fun y => y, fun _ _ => false, fun y _ => y,
        [1], 0, 1, 1, 0⟩ : HybridEquation).solve (fun _ => 0)
      (⟨fun y => y, fun y => y, fun _ _ => false, fun y _ => y,
        [1], 0, 1, 1, 0⟩ : HybridEquation).initState
      ⟨fun _ => 0, 0, fun _ => 0, 0⟩).1.1.length := by
  have hsteps : ((⟨fun y => y, fun y => y, fun _ _ => false, fun y _ => y,
      [1], 0, 1, 1, 0⟩ : HybridEquation).steps) = 1 := by
    norm_num [HybridEquation.steps, intTrunc]
  simp only [HybridEquation.solve, HybridEquation.initState]
  simp [HybridEquation.loop_time_length, List.length_append, hsteps]

/-- C10: when `dt > 0` and `0 < t1 - t0 < dt`, the derived step count is
`int` of a number in `(0, 1)`, hence `0`: construction succeeds (returning
the instance unchanged), `solve` performs zero iterations and returns the
single recorded pair `(t0, y0)` with the instance state and the random
generator untouched, and no error is raised.  Stated for both simulators. -/
theorem zero_step_run (M : HybridEquation) (N : JumpDiffusion) (sqrt : ℚ → ℚ)
    (r : Rng) (hdt : 0 < M.dt) (ht : M.t0 < M.t1) (hlt : M.t1 - M.t0 < M.dt)
    (hdtN : 0 < N.dt) (htN : N.t0 < N.t1) (hltN : N.t1 - N.t0 < N.dt) :
    (HybridEquation.init M.f_continuous M.g_stochastic M.jump_condition
       M.jump_map M.y0 M.t0 M.t1 M.dt M.noise_intensity = .ok M ∧
     M.steps = 0 ∧
     M.solve sqrt M.initState r = (([M.t0], [M.y0]), M.initState, r)) ∧
    (JumpDiffusion.init N.f N.g N.jump_intensity N.jump_size N.y0 N.t0 N.t1
       N.dt N.noise_intensity = .ok N ∧
     N.steps = 0 ∧
     N.solve sqrt N.initState r = (([N.t0], [N.y0]), N.initState, r)) := by
  have h0 : M.steps = 0 :=
    intTrunc_eq_zero _ (div_pos (by linarith) hdt).le
      ((div_lt_one hdt).mpr (by linarith))
  have h0N : N.steps = 0 :=
    intTrunc_eq_zero _ (div_pos (by linarith) hdtN).le
      ((div_lt_one hdtN).mpr (by linarith))
  refine ⟨⟨?_, h0, ?_⟩, ⟨?_, h0N, ?_⟩⟩
  · unfold HybridEquation.init
    rw [if_neg (ne_of_gt hdt)]
  · simp [HybridEquation.solve, h0, HybridEquation.initState,
          HybridEquation.loop]
  · unfold JumpDiffusion.init
    rw [if_neg (ne_of_gt hdtN)]
  · simp [JumpDiffusion.solve, h0N, JumpDiffusion.initState,
          JumpDiffusion.loop]

/-- C10 witness: with `t0 = 0`, `t1 = 1/2`, `dt = 1` the hypotheses hold and
the hybrid solve returns exactly the single pair `(0, [1])` with the
instance state and generator untouched. -/
theorem zero_step_run_witness :
    (⟨fun y => y, fun y => y, fun _ _ => false, fun y _ => y,
        [1], 0, 1/2, 1, 0⟩ : HybridEquation).solve (fun _ => 0)
      (⟨fun y => y, fun y => y, fun _ _ => false, fun y _ => y,
        [1], 0, 1/2, 1, 0⟩ : HybridEquation).initState
      ⟨fun _ => 0, 0, fun _ => 0, 0⟩ =
      (([0], [[1]]),
       (⟨fun y => y, fun y => y, fun _ _ => false, fun y _ => y,
          [1], 0, 1/2, 1, 0⟩ : HybridEquation).initState,
       ⟨fun _ => 0, 0, fun _ => 0, 0⟩) :=
  (zero_step_run
    (⟨fun y => y, fun y => y, fun _ _ => false, fun y _ => y,
        [1], 0, 1/2, 1, 0⟩ : HybridEquation)
    (⟨fun y => y, fun y => y, 0, fun y => y, [1], 0, 1/2, 1, 0⟩ :
        JumpDiffusion)
    (fun _ => 0) ⟨fun _ => 0, 0, fun _ => 0, 0⟩
    (by norm_num) (by norm_num) (by norm_num)
    (by norm_num) (by norm_num) (by norm_num)).1.2.2

/-- C1 witness: instantiating the no-validation theorem at `dt = 1` shows the
hybrid constructor with `t1 = -1 < t0 = 0` and `σ = -1` raises nothing. -/
theorem construction_no_validation_witness :
    ¬ (∃ e, HybridEquation.init (fun y => y) (fun y => y) (fun _ _ => false)
        (fun y _ => y) [1] 0 (-1) 1 (-1) = .error e) := by
  have h := ((construction_no_validation).1 (fun y => y) (fun y => y)
    (fun _ _ => false) (fun y _ => y) [1] 0 (-1) 1 (-1)).1
  rw [h]
  norm_num

/-- C6 witness: for the dimension-2 state with dimension-1 drift output, the
broadcast characterization yields a successful step. -/
theorem shape_mismatch_broadcast_witness :
    ∃ p, (⟨fun _ => [3], fun y => y, fun _ _ => false, fun y _ => y,
        [1, 2], 0, 1, 1, 1⟩ : HybridEquation).emStepChecked
      (fun _ => 1) [1, 2] 1 ⟨fun _ => 0, 0, fun _ => 0, 0⟩ = .ok p :=
  ((shape_mismatch_broadcast
    (⟨fun _ => [3], fun y => y, fun _ _ => false, fun y _ => y,
        [1, 2], 0, 1, 1, 1⟩ : HybridEquation)
    (⟨fun y => y, fun y => y, 0, fun y => y, [1, 2], 0, 1, 1, 1⟩ :
        JumpDiffusion)
    (fun _ => 1) [1, 2] 1 ⟨fun _ => 0, 0, fun _ => 0, 0⟩).1.1).mpr
    (by refine ⟨?_, ?_, ?_⟩ <;> decide)

/-- C9 witness: for the one-step hybrid instance the reuse theorem gives a
second-run time list of length `2·1 + 1 = 3`. -/
theorem solve_reuse_appends_witness :
    ((⟨fun y => y, fun y => y, fun _ _ => false, fun y _ => y,
        [1], 0, 1, 1, 0⟩ : HybridEquation).solve (fun _ => 0)
      ((⟨fun y => y, fun y => y, fun _ _ => false, fun y _ => y,
          [1], 0, 1, 1, 0⟩ : HybridEquation).solve (fun _ => 0)
        (⟨fun y => y, fun y => y, fun _ _ => false, fun y _ => y,
          [1], 0, 1, 1, 0⟩ : HybridEquation).initState
        ⟨fun _ => 0, 0, fun _ => 0, 0⟩).2.1
      ((⟨fun y => y, fun y => y, fun _ _ => false, fun y _ => y,
          [1], 0, 1, 1, 0⟩ : HybridEquation).solve (fun _ => 0)
        (⟨fun y => y, fun y => y, fun _ _ => false, fun y _ => y,
          [1], 0, 1, 1, 0⟩ : HybridEquation).initState
        ⟨fun _ => 0, 0, fun _ => 0, 0⟩).2.2).1.1.length = 3 := by
  have hsteps : ((⟨fun y => y, fun y => y, fun _ _ => false, fun y _ => y,
      [1], 0, 1, 1, 0⟩ : HybridEquation).steps) = 1 := by
    norm_num [HybridEquation.steps, intTrunc]
  have h := (solve_reuse_appends
    (⟨fun y => y, fun y => y, fun _ _ => false, fun y _ => y,
        [1], 0, 1, 1, 0⟩ : HybridEquation)
    (⟨fun y => y, fun y => y, 0, fun y => y, [1], 0, 1, 1, 0⟩ : JumpDiffusion)
    (fun _ => 0) ⟨fun _ => 0, 0, fun _ => 0, 0⟩).1.1
  rw [h, hsteps]
  decide
